import Mathlib

/-!
Verification of the Battleship web application (battleship-revamp-retro).

The development shallowly embeds the parts of the repository's Python
source that the checked properties concern:

* `src/battleship/game/engine.py` — the rules engine (`Game`, `fire`,
  `get_stats`, `place_fleet`, `_is_valid_placement`);
* `src/api/models/user.py` — the in-memory rate limiter
  (`AuthService.check_rate_limit`);
* `src/battleship/auth/service.py` — login-credential validation and
  session-cookie creation;
* `src/battleship/api/routes/scores.py` — score computation
  (`save_game_score`);
* `src/battleship/api/routes/game.py` — the turn handler (`_take_turn`);
* `src/battleship/api/routes/ai.py` — the player-shot route
  (`player_shot`).

Python `int` is modelled as `ℤ`, Python `set` as `Finset`, Python float
arithmetic on the small ratios that appear in the statistics as exact
rational arithmetic (`ℚ`), with decimal rounding modelled by `round`.
Randomness (`secrets.choice` / `secrets.randbelow`) is modelled by an
explicit oracle parameter supplying the random draws; `randbelow n` with
a draw `r` becomes `(r : ℤ) % n`, which agrees with the library call for
every positive bound `n`.
-/

namespace Battleship

/-- A board coordinate, `Coord = tuple[int, int]` in the source. -/
abbrev Coord := ℤ × ℤ

/-- Board state of a single game (`@dataclass class Game`). -/
structure Game where
  size : ℤ
  ships : Finset Coord
  hits : Finset Coord
  misses : Finset Coord
  deriving DecidableEq

/-- The dictionary returned by `Game.fire`.  The three keys are read by
callers through `dict.get`, which defaults to `False` for an absent key,
so each result is modelled as a record of three booleans whose absent
keys are `false`. -/
structure FireResult where
  hit : Bool := false
  won : Bool := false
  isRepeat : Bool := false
  deriving DecidableEq

/-- `Game.fire(x, y)`: repeat shots leave the state untouched; a shot on
a ship cell is added to `hits` and reports `won` iff every ship cell is
hit; any other shot is added to `misses`. -/
def Game.fire (g : Game) (x y : ℤ) : FireResult × Game :=
  let shot : Coord := (x, y)
  if shot ∈ g.hits ∨ shot ∈ g.misses then
    ({ isRepeat := true }, g)
  else if shot ∈ g.ships then
    let hits' := insert shot g.hits
    ({ hit := true, won := decide (g.ships ⊆ hits') }, { g with hits := hits' })
  else
    ({ hit := false }, { g with misses := insert shot g.misses })

/-- `round(q, 1)`: rounding to one decimal place, modelled exactly on
rationals. -/
def round1 (q : ℚ) : ℚ := (round (q * 10) : ℚ) / 10

/-- The dictionary returned by `Game.get_stats`. -/
structure Stats where
  shots_fired : ℕ
  hitCount : ℕ
  accuracy : ℚ
  ships_remaining : ℤ
  total_ship_cells : ℕ
  percent_ships_remaining : ℚ
  game_over : Bool
  board_size : ℤ
  total_cells : ℤ
  deriving DecidableEq

/-- `Game.get_stats()` from `src/battleship/game/engine.py` lines 77–95,
translated field by field (the `"hits"` key is called `hitCount` here to
avoid clashing with the `Game.hits` field). -/
def Game.get_stats (g : Game) : Stats :=
  let shots_fired : ℕ := g.hits.card + g.misses.card
  let accuracy : ℚ :=
    if shots_fired > 0 then (g.hits.card : ℚ) / shots_fired * 100 else 0
  let ships_remaining : ℤ := (g.ships.card : ℤ) - g.hits.card
  let total_ship_cells : ℕ := g.ships.card
  let percent_ships_remaining : ℚ :=
    if total_ship_cells > 0 then
      (ships_remaining : ℚ) / total_ship_cells * 100
    else 0
  { shots_fired := shots_fired
    hitCount := g.hits.card
    accuracy := round1 accuracy
    ships_remaining := ships_remaining
    total_ship_cells := total_ship_cells
    percent_ships_remaining := round1 percent_ships_remaining
    game_over := decide (g.ships ⊆ g.hits)
    board_size := g.size
    total_cells := g.size * g.size }

/-! ### Fleet placement (`place_fleet`, `_is_valid_placement`) -/

/-- `FLEET_CONFIGS`: the fleet-length table keyed by board size. -/
def FLEET_CONFIGS : List (ℤ × List ℕ) :=
  [(6, [3, 2, 2, 1]), (7, [3, 3, 2, 2, 1]), (8, [4, 3, 3, 2, 2]),
   (9, [4, 4, 3, 3, 2, 1]), (10, [5, 4, 3, 3, 2])]

/-- `FLEET_CONFIGS.get(size, FLEET_CONFIGS[8])` — lookup with the 8×8
fleet as fallback, as in `Game.get_fleet_config`. -/
def fleetFor (size : ℤ) : List ℕ :=
  (FLEET_CONFIGS.lookup size).getD [4, 3, 3, 2, 2]

/-- `Game.get_fleet_config`. -/
def Game.get_fleet_config (g : Game) : List ℕ := fleetFor g.size

/-- The `(-1, 0, 1)` tuples iterated by `_is_valid_placement`. -/
def deltas : List ℤ := [-1, 0, 1]

/-- `Game._is_valid_placement`, as a function of the already-placed ship
set: the candidate must not intersect the placed cells, and none of its
cells may have a placed cell among its 8 neighbours. -/
def valid_placement (ships coords : Finset Coord) : Bool :=
  decide (coords ∩ ships = ∅) &&
  decide (∀ c ∈ coords, ∀ dx ∈ deltas, ∀ dy ∈ deltas,
    ¬(dx = 0 ∧ dy = 0) → (c.1 + dx, c.2 + dy) ∉ ships)

/-- `Game._is_valid_placement` (and the public `is_valid_placement`
wrapper), which reads only `self.ships`. -/
def Game.is_valid_placement (g : Game) (coords : Finset Coord) : Bool :=
  valid_placement g.ships coords

/-- `secrets.randbelow(n)` applied to an oracle draw `r`: for every
positive bound `n` the library call returns a uniform value in
`[0, n)`, which the draw reaches as `r % n`. -/
def randbelow (n : ℤ) (r : ℕ) : ℤ := (r : ℤ) % n

/-- One random draw for one placement attempt: the `secrets.choice`
orientation plus the two `secrets.randbelow` arguments. -/
abbrev Draw := Bool × ℕ × ℕ

/-- The candidate coordinate set built by one attempt of the
`place_fleet` loop body. -/
def shipCandidate (size : ℤ) (length : ℕ) (d : Draw) : Finset Coord :=
  if d.1 then
    let x := randbelow (size - length + 1) d.2.1
    let y := randbelow size d.2.2
    (Finset.range length).image (fun i : ℕ => (x + (i : ℤ), y))
  else
    let x := randbelow size d.2.1
    let y := randbelow (size - length + 1) d.2.2
    (Finset.range length).image (fun i : ℕ => (x, y + (i : ℤ)))

/-- The `while attempts < max_attempts` retry loop for one ship: try the
candidate from each successive draw, accept the first valid one, give up
after `fuel` attempts (the source uses `max_attempts = 100`). -/
def placeShipAux (size : ℤ) (length : ℕ) (rand : ℕ → Draw)
    (ships : Finset Coord) : ℕ → ℕ → Option (Finset Coord)
  | _, 0 => none
  | attempt, fuel + 1 =>
    let coords := shipCandidate size length (rand attempt)
    if valid_placement ships coords then some coords
    else placeShipAux size length rand ships (attempt + 1) fuel

/-- Placement of a single ship: up to 100 attempts. -/
def place_ship (size : ℤ) (length : ℕ) (rand : ℕ → Draw)
    (ships : Finset Coord) : Option (Finset Coord) :=
  placeShipAux size length rand ships 0 100

/-- The `for length in fleet` loop of `place_fleet`, threading the ship
set and collecting the accepted placements in order (a ship whose 100
attempts all fail contributes nothing). -/
def placeFleetAux (size : ℤ) (rand : ℕ → ℕ → Draw) :
    List ℕ → ℕ → Finset Coord → Finset Coord × List (Finset Coord)
  | [], _, ships => (ships, [])
  | length :: rest, i, ships =>
    match place_ship size length (rand i) ships with
    | some coords =>
      let r := placeFleetAux size rand rest (i + 1) (ships ∪ coords)
      (r.1, coords :: r.2)
    | none => placeFleetAux size rand rest (i + 1) ships

/-- `Game.place_fleet` run on a cleared ship set: the final ship set and
the list of accepted per-ship placements. -/
def place_fleet_run (size : ℤ) (rand : ℕ → ℕ → Draw) :
    Finset Coord × List (Finset Coord) :=
  placeFleetAux size rand (fleetFor size) 0 ∅

/-- `Game.place_fleet`: clear `ships`, then place the configured fleet. -/
def Game.place_fleet (g : Game) (rand : ℕ → ℕ → Draw) : Game :=
  { g with ships := (place_fleet_run g.size rand).1 }

/-- `__post_init__`: `self.size = max(6, min(10, self.size))`. -/
def clampSize (size : ℤ) : ℤ := max 6 (min 10 size)

/-- `Game.new(size)`: a clamped empty board with a freshly placed fleet. -/
def Game.new (size : ℤ) (rand : ℕ → ℕ → Draw) : Game :=
  Game.place_fleet { size := clampSize size, ships := ∅, hits := ∅, misses := ∅ } rand

/-- `Game.reset()`: clear hits, misses and ships, then re-place the
fleet. -/
def Game.reset (g : Game) (rand : ℕ → ℕ → Draw) : Game :=
  Game.place_fleet { g with hits := ∅, misses := ∅, ships := ∅ } rand

/-- The union of the first `i` accepted placements: the already-placed
ship cells a later placement was validated against. -/
def partialUnion (gs : List (Finset Coord)) (i : ℕ) : Finset Coord :=
  (gs.take i).foldr (· ∪ ·) ∅

/-! ### Rate limiter (`AuthService.check_rate_limit`,
`src/api/models/user.py` lines 357–378).  Event timestamps
(`datetime.now(UTC).timestamp()`) are modelled as exact rationals. -/

/-- The pruning comprehension `[t for t in bucket if now - t < window]`. -/
def prune_bucket (now window : ℚ) (bucket : List ℚ) : List ℚ :=
  bucket.filter (fun t => now - t < window)

/-- `check_rate_limit` for one key: prune the bucket, deny when the
remaining count already reaches the limit, otherwise append the current
time and allow.  Returns the allow flag and the stored bucket. -/
def check_rate_limit (limit : ℕ) (window now : ℚ) (bucket : List ℚ) :
    Bool × List ℚ :=
  let b := prune_bucket now window bucket
  if limit ≤ b.length then (false, b) else (true, b ++ [now])

/-- `k` successive `check_rate_limit` calls for one key starting from an
absent bucket, the `i`-th call made at time `ts i`; returns the final
bucket and the list of allow flags. -/
def rlRun (limit : ℕ) (window : ℚ) (ts : ℕ → ℚ) : ℕ → List ℚ × List Bool
  | 0 => ([], [])
  | k + 1 =>
    let p := rlRun limit window ts k
    let c := check_rate_limit limit window (ts k) p.1
    (c.2, p.2 ++ [c.1])

/-! ### Login-credential validation
(`validate_login_credentials`, `src/battleship/auth/service.py`
lines 221–257).  Email-format validation, the database lookup and Argon2
password verification are external effects, passed in as functions. -/

/-- The columns of a `users` row that `validate_login_credentials`
reads. -/
structure DBUser where
  uid : String
  username : String
  email : String
  display_name : Option String
  avatar_url : Option String
  password_hash : Option String
  is_active : Bool
  is_verified : Bool
  deriving DecidableEq

/-- The `AuthenticatedUser` model built on success. -/
structure AuthenticatedUser where
  uid : String
  username : String
  email : String
  display_name : Option String
  avatar_url : Option String
  is_active : Bool
  is_verified : Bool
  permissions : List String
  deriving DecidableEq

/-- Python truthiness of the optional `password_hash` column
(`not user.password_hash` is true for both `None` and `""`). -/
def truthyStr : Option String → Bool
  | none => false
  | some s => decide (s ≠ "")

/-- The outcome of `validate_login_credentials`: either an error
response (`ResponseContext(ok=..., message=...)`) or success (the
function sets `auth_req.user` and returns `None`). -/
inductive LoginOutcome where
  | failure (ok : Bool) (message : String)
  | success (user : AuthenticatedUser)
  deriving DecidableEq

/-- `validate_login_credentials`: validate the email format, look the
user up, reject inactive or password-less accounts, verify the
password; build the authenticated user on success. -/
def validate_login_credentials
    (validate_email : String → Option String)
    (get_user_by_email : String → Option DBUser)
    (verify_password : String → String → Bool)
    (email password : String) : LoginOutcome :=
  match validate_email email with
  | none => .failure false "Invalid email or password."
  | some validated =>
    match get_user_by_email validated with
    | none => .failure false "Invalid email or password."
    | some user =>
      if !user.is_active || !truthyStr user.password_hash then
        .failure false "Invalid email or password."
      else if !verify_password password (user.password_hash.getD "") then
        .failure false "Invalid email or password."
      else
        .success ⟨user.uid, user.username, user.email, user.display_name,
          user.avatar_url, user.is_active, user.is_verified, []⟩

/-! ### Session cookies (`create_session_cookies`,
`src/battleship/auth/service.py` lines 308–361). -/

/-- The keyword arguments of one `response.set_cookie` call. -/
structure CookieSettings where
  max_age : ℤ
  httponly : Bool
  secure : Bool
  samesite : String
  path : String
  deriving DecidableEq

/-- The `session_token` and `access_token` cookie settings produced by
`create_session_cookies` on a successful login.  The deployment
environment is passed in so the specified dependence on it can be
stated; the source never consults it — both `set_cookie` calls pass the
literal `secure=False`. -/
def create_session_cookies (environment : String) (remember : Bool) :
    CookieSettings × CookieSettings :=
  let session_expiry : ℤ := if remember then 30 * 86400 else 24 * 3600
  ({ max_age := session_expiry, httponly := true, secure := false,
     samesite := "lax", path := "/" },
   { max_age := 1800, httponly := true, secure := false,
     samesite := "lax", path := "/" })

/-! ### Score computation (`save_game_score`,
`src/battleship/api/routes/scores.py` lines 210–231). -/

/-- Python `int()` on a float: truncation toward zero. -/
def pyIntTrunc (q : ℚ) : ℤ := if 0 ≤ q then ⌊q⌋ else -⌊-q⌋

/-- The `scores` row written by `save_game_score`. -/
structure ScoreRow where
  score : ℤ
  shots_fired : ℕ
  accuracy : ℚ
  board_size : ℤ
  difficulty : String
  deriving DecidableEq

/-- `save_game_score`: compute the final score from the completed-game
statistics and persist the row.  `difficulty` models the optional
`"difficulty"` key of the statistics dictionary
(`game_stats.get("difficulty", "standard")`). -/
def save_game_score (stats : Stats) (difficulty : Option String) : ScoreRow :=
  let base_score : ℤ := 1000
  let shot_penalty : ℤ := (stats.shots_fired : ℤ) * 10
  let accuracy_bonus : ℤ := pyIntTrunc (stats.accuracy * 2)
  let size_bonus : ℤ := stats.board_size * 5
  let final_score : ℤ := max 0 (base_score - shot_penalty + accuracy_bonus + size_bonus)
  { score := final_score, shots_fired := stats.shots_fired,
    accuracy := stats.accuracy, board_size := stats.board_size,
    difficulty := difficulty.getD "standard" }

/-! ### Game routes (`_take_turn` / `save_user_score`,
`src/battleship/api/routes/game.py` lines 131–269).  The strategy call
`AiOpponent(ai_board).get_best_move(...)` is an oracle parameter: the
claims checked here do not depend on which cell it picks. -/

/-- The per-`(user, tier)` `SessionState` of the game routes. -/
structure SessionState where
  player_target : Game
  ai_target : Game
  log : List String

/-- `SessionState.append_log`: append, then drop the oldest entry while
more than 5 are held (a single `pop(0)` suffices per append). -/
def SessionState.append_log (s : SessionState) (message : String) : SessionState :=
  let l := s.log ++ [message]
  { s with log := if 5 < l.length then l.drop 1 else l }

/-- `SessionState.player_won`. -/
def SessionState.player_won (s : SessionState) : Bool :=
  decide (s.player_target.ships ⊆ s.player_target.hits)

/-- `SessionState.ai_won`. -/
def SessionState.ai_won (s : SessionState) : Bool :=
  decide (s.ai_target.ships ⊆ s.ai_target.hits)

/-- `save_user_score` persists a score exactly when the board's
statistics report `game_over` (the guard at the top of the function);
database failures are logged and swallowed and are not modelled. -/
def save_user_score_saves (g : Game) : Bool := (g.get_stats).game_over

/-- What one `_take_turn` call did: the updated session, the AI's
single return shot if it fired one, and whether a score row was
persisted. -/
structure TurnResult where
  session : SessionState
  ai_shot : Option (ℤ × ℤ)
  score_saved : Bool

/-- The narration for the player's shot (`"HIT at …"` / `"MISS at …"`,
with the victory banner appended on a win). -/
def player_shot_msg (result : FireResult) (x y : ℤ) : String :=
  if result.hit then
    if result.won then s!"HIT at ({x + 1}, {y + 1})! VICTORY! Enemy fleet eliminated."
    else s!"HIT at ({x + 1}, {y + 1})!"
  else s!"MISS at ({x + 1}, {y + 1})."

/-- The narration for the AI's return shot. -/
def ai_shot_msg (ar : FireResult) (mx my : ℤ) : String :=
  if ar.hit then s!"WARNING: Enemy return fire HIT at ({mx + 1}, {my + 1})!"
  else s!"Enemy return fire missed at ({mx + 1}, {my + 1})."

/-- `_take_turn`: one player move plus at most one AI reply, following
the source's control flow (already-over, bounds check, player fire,
repeat, hit/victory with best-effort score save, AI return fire, log
append). -/
def take_turn (current_user : Option AuthenticatedUser)
    (aiMove : Game → ℤ × ℤ) (s : SessionState) (x y : ℤ) : TurnResult :=
  if s.player_won || s.ai_won then
    ⟨s, none, false⟩
  else if !(decide (0 ≤ x) && decide (x < s.player_target.size) &&
      decide (0 ≤ y) && decide (y < s.player_target.size)) then
    ⟨s, none, false⟩
  else
    let fr := s.player_target.fire x y
    let result := fr.1
    let pb' := fr.2
    if result.isRepeat then
      let status_message := s!"Already targeted ({x + 1}, {y + 1})."
      ⟨SessionState.append_log { s with player_target := pb' } status_message,
        none, false⟩
    else
      let saved := result.hit && (result.won &&
        (current_user.isSome && save_user_score_saves pb'))
      if result.won then
        ⟨SessionState.append_log { s with player_target := pb' }
          (player_shot_msg result x y), none, saved⟩
      else
        let mv := aiMove s.ai_target
        let ar := s.ai_target.fire mv.1 mv.2
        ⟨SessionState.append_log
            { s with player_target := pb', ai_target := ar.2 }
            (player_shot_msg result x y ++ " " ++ ai_shot_msg ar.1 mv.1 mv.2),
          some mv, saved⟩

/-! ### AI routes (`player_shot`, `src/battleship/api/routes/ai.py`
lines 266–311).  The opponent's `make_move` is again an oracle. -/

/-- The per-`(user, tier)` session dictionary of the AI routes. -/
structure AISession where
  player_game : Game
  ai_game : Game
  turn : String
  last_ai_move : Option (ℤ × ℤ)

/-- The observable outcome of `POST /ai/shot`: a 404 when no session
exists, or the rendered game screen over the updated session. -/
inductive ShotOutcome where
  | notFound
  | page (sess : AISession)

/-- The body of `player_shot` once the session lookup succeeded: apply
the player's shot (with no bounds check on the form-supplied
coordinates), then let the AI respond unless the shot won or was a
repeat. -/
def player_shot_session (aiMove : AISession → ℤ × ℤ) (sd : AISession)
    (x y : ℤ) : ShotOutcome :=
  if sd.turn ≠ "player" then .page sd
  else
    let pr := sd.player_game.fire x y
    let sd1 := { sd with player_game := pr.2 }
    if pr.1.won then .page { sd1 with turn := "game_over" }
    else if !pr.1.isRepeat then
      let sd2 := { sd1 with turn := "ai" }
      let mv := aiMove sd2
      let ar := sd2.ai_game.fire mv.1 mv.2
      let sd3 := { sd2 with ai_game := ar.2, last_ai_move := some mv }
      .page { sd3 with turn := if ar.1.won then "game_over" else "player" }
    else .page sd1

/-- `player_shot`: a 404 when no session exists for the user and tier,
otherwise the turn body above. -/
def player_shot (aiMove : AISession → ℤ × ℤ) (sess : Option AISession)
    (x y : ℤ) : ShotOutcome :=
  match sess with
  | none => .notFound
  | some sd => player_shot_session aiMove sd x y

/-! ### Reachable game states (`Game.new`, `Game.fire`, `Game.reset`) -/

/-- One engine operation a route can perform on a board. -/
inductive Op where
  | fireAt (x y : ℤ)
  | resetOp (rand : ℕ → ℕ → Draw)

/-- Apply one operation to a board. -/
def applyOp (g : Game) : Op → Game
  | .fireAt x y => (g.fire x y).2
  | .resetOp rand => g.reset rand

/-- The invariant of claim C6: hits and misses are disjoint, and every
hit is a ship cell. -/
def Inv (g : Game) : Prop := Disjoint g.hits g.misses ∧ g.hits ⊆ g.ships

/-! ## Theorems -/

/-- Unfolded form of `Game.fire`. -/
lemma fire_eq (g : Game) (x y : ℤ) :
    g.fire x y =
      if (x, y) ∈ g.hits ∨ (x, y) ∈ g.misses then ({ isRepeat := true }, g)
      else if (x, y) ∈ g.ships then
        ({ hit := true, won := decide (g.ships ⊆ insert (x, y) g.hits) },
          { g with hits := insert (x, y) g.hits })
      else ({ hit := false }, { g with misses := insert (x, y) g.misses }) :=
  rfl

/-- C1: `fire(x, y)` on an already fired-upon cell reports a repeat and
changes nothing; on a fresh ship cell it adds the cell to `hits`,
reports a hit, and reports `won` exactly when every ship cell is hit
afterwards; on any other fresh cell it adds the cell to `misses` and
reports a miss. -/
theorem fire_spec (g : Game) (x y : ℤ) :
    (((x, y) ∈ g.hits ∨ (x, y) ∈ g.misses) →
      g.fire x y = ({ isRepeat := true }, g)) ∧
    ((x, y) ∉ g.hits → (x, y) ∉ g.misses → (x, y) ∈ g.ships →
      g.fire x y =
        ({ hit := true, won := decide (g.ships ⊆ insert (x, y) g.hits) },
          { g with hits := insert (x, y) g.hits }) ∧
      ((g.fire x y).1.won = true ↔ g.ships ⊆ insert (x, y) g.hits)) ∧
    ((x, y) ∉ g.hits → (x, y) ∉ g.misses → (x, y) ∉ g.ships →
      g.fire x y = ({ hit := false }, { g with misses := insert (x, y) g.misses })) := by
  refine ⟨fun h => ?_, fun h1 h2 h3 => ?_, fun h1 h2 h3 => ?_⟩
  · rw [fire_eq, if_pos h]
  · have hno : ¬((x, y) ∈ g.hits ∨ (x, y) ∈ g.misses) := by tauto
    constructor
    · rw [fire_eq, if_neg hno, if_pos h3]
    · rw [fire_eq, if_neg hno, if_pos h3]
      simp
  · have hno : ¬((x, y) ∈ g.hits ∨ (x, y) ∈ g.misses) := by tauto
    rw [fire_eq, if_neg hno, if_neg h3]

/-- Witness for C1: firing the single ship cell of a fresh one-ship
board is a hit that wins. -/
theorem fire_spec_witness :
    Game.fire ⟨8, {((0 : ℤ), (0 : ℤ))}, ∅, ∅⟩ 0 0 =
      ({ hit := true,
         won := decide (({((0 : ℤ), (0 : ℤ))} : Finset Coord) ⊆
           insert ((0 : ℤ), (0 : ℤ)) (∅ : Finset Coord)) },
        { size := 8, ships := {((0 : ℤ), (0 : ℤ))},
          hits := insert ((0 : ℤ), (0 : ℤ)) (∅ : Finset Coord), misses := ∅ }) ∧
    ((Game.fire ⟨8, {((0 : ℤ), (0 : ℤ))}, ∅, ∅⟩ 0 0).1.won = true ↔
      ({((0 : ℤ), (0 : ℤ))} : Finset Coord) ⊆ insert ((0 : ℤ), (0 : ℤ)) (∅ : Finset Coord)) :=
  (fire_spec ⟨8, {((0 : ℤ), (0 : ℤ))}, ∅, ∅⟩ 0 0).2.1
    (Finset.not_mem_empty _) (Finset.not_mem_empty _) (Finset.mem_singleton_self _)

/-- `place_fleet` only replaces the ship set. -/
lemma place_fleet_hits (g : Game) (rand : ℕ → ℕ → Draw) :
    (g.place_fleet rand).hits = g.hits := rfl

/-- `place_fleet` only replaces the ship set. -/
lemma place_fleet_misses (g : Game) (rand : ℕ → ℕ → Draw) :
    (g.place_fleet rand).misses = g.misses := rfl

/-- A board with no recorded shots satisfies the invariant. -/
lemma Inv_of_no_shots {g : Game} (hh : g.hits = ∅) (hm : g.misses = ∅) :
    Inv g := by
  constructor
  · rw [hh, hm]; exact disjoint_bot_left
  · rw [hh]; exact Finset.empty_subset _

/-- `Game.new` satisfies the invariant. -/
lemma Inv_new (size : ℤ) (rand : ℕ → ℕ → Draw) : Inv (Game.new size rand) :=
  Inv_of_no_shots rfl rfl

/-- `fire` preserves the invariant. -/
lemma Inv_fire {g : Game} (h : Inv g) (x y : ℤ) : Inv ((g.fire x y).2) := by
  obtain ⟨hd, hs⟩ := h
  rw [fire_eq]
  by_cases hrep : (x, y) ∈ g.hits ∨ (x, y) ∈ g.misses
  · rw [if_pos hrep]; exact ⟨hd, hs⟩
  · rw [if_neg hrep]
    push_neg at hrep
    obtain ⟨hh, hm⟩ := hrep
    by_cases hship : (x, y) ∈ g.ships
    · rw [if_pos hship]
      refine ⟨?_, ?_⟩
      · exact Finset.disjoint_insert_left.mpr ⟨hm, hd⟩
      · exact Finset.insert_subset hship hs
    · rw [if_neg hship]
      refine ⟨?_, hs⟩
      exact Finset.disjoint_insert_right.mpr ⟨hh, hd⟩

/-- Every operation preserves the invariant. -/
lemma Inv_applyOp {g : Game} (h : Inv g) (op : Op) : Inv (applyOp g op) := by
  cases op with
  | fireAt x y => exact Inv_fire h x y
  | resetOp rand => exact Inv_of_no_shots rfl rfl

/-- Folding operations preserves the invariant. -/
lemma Inv_foldl (ops : List Op) : ∀ g : Game, Inv g → Inv (ops.foldl applyOp g) := by
  induction ops with
  | nil => exact fun g h => h
  | cons op rest ih => exact fun g h => ih (applyOp g op) (Inv_applyOp h op)

/-- C6: in every state reachable from `Game.new` by `fire` and `reset`
operations, `hits` and `misses` are disjoint and every hit coordinate
is a ship coordinate. -/
theorem reachable_invariant (size : ℤ) (rand : ℕ → ℕ → Draw) (ops : List Op) :
    Inv (ops.foldl applyOp (Game.new size rand)) :=
  Inv_foldl ops _ (Inv_new size rand)

/-- A candidate enumerates `length` distinct cells. -/
lemma shipCandidate_card (size : ℤ) (length : ℕ) (d : Draw) :
    (shipCandidate size length d).card = length := by
  rcases d with ⟨h, rx, ry⟩
  cases h
  · have he : shipCandidate size length (false, rx, ry) =
        (Finset.range length).image
          (fun i : ℕ => (randbelow size rx, randbelow (size - length + 1) ry + (i : ℤ))) := rfl
    have hinj : Function.Injective
        (fun i : ℕ => (randbelow size rx, randbelow (size - length + 1) ry + (i : ℤ))) := by
      intro a b hab
      have h2 : (a : ℤ) = b := by
        have := congrArg Prod.snd hab
        dsimp at this
        linarith
      exact_mod_cast h2
    rw [he, Finset.card_image_of_injective _ hinj, Finset.card_range]
  · have he : shipCandidate size length (true, rx, ry) =
        (Finset.range length).image
          (fun i : ℕ => (randbelow (size - length + 1) rx + (i : ℤ), randbelow size ry)) := rfl
    have hinj : Function.Injective
        (fun i : ℕ => (randbelow (size - length + 1) rx + (i : ℤ), randbelow size ry)) := by
      intro a b hab
      have h1 : (a : ℤ) = b := by
        have := congrArg Prod.fst hab
        dsimp at this
        linarith
      exact_mod_cast h1
    rw [he, Finset.card_image_of_injective _ hinj, Finset.card_range]

/-- An accepted placement does not intersect the placed ship cells. -/
lemma valid_placement_inter {ships coords : Finset Coord}
    (h : valid_placement ships coords = true) : coords ∩ ships = ∅ := by
  unfold valid_placement at h
  simp only [Bool.and_eq_true, decide_eq_true_eq] at h
  exact h.1

/-- An accepted placement is disjoint from the placed ship cells. -/
lemma valid_placement_disjoint {ships coords : Finset Coord}
    (h : valid_placement ships coords = true) : Disjoint ships coords :=
  (Finset.disjoint_iff_inter_eq_empty.mpr (valid_placement_inter h)).symm

/-- Whatever `placeShipAux` accepts was validated against the current
ship set and has exactly `length` cells. -/
lemma placeShipAux_some {size : ℤ} {length : ℕ} {rand : ℕ → Draw}
    {ships : Finset Coord} :
    ∀ {fuel attempt : ℕ} {coords : Finset Coord},
      placeShipAux size length rand ships attempt fuel = some coords →
      valid_placement ships coords = true ∧ coords.card = length := by
  intro fuel
  induction fuel with
  | zero => intro attempt coords h; simp [placeShipAux] at h
  | succ n ih =>
    intro attempt coords h
    simp only [placeShipAux] at h
    split at h
    · rename_i hvalid
      cases h
      exact ⟨hvalid, shipCandidate_card _ _ _⟩
    · exact ih h

/-- Specialization of `placeShipAux_some` to `place_ship`. -/
lemma place_ship_some {size : ℤ} {length : ℕ} {rand : ℕ → Draw}
    {ships coords : Finset Coord}
    (h : place_ship size length rand ships = some coords) :
    valid_placement ships coords = true ∧ coords.card = length :=
  placeShipAux_some h

/-- Taking one more placement prepends it to the partial union. -/
lemma partialUnion_cons (a : Finset Coord) (gs : List (Finset Coord)) (j : ℕ) :
    partialUnion (a :: gs) (j + 1) = a ∪ partialUnion gs j := rfl

/-- Invariants of the `place_fleet` loop: every accepted placement was
valid against the cells placed before it, at most one placement is
recorded per fleet entry, the placed-cell count is bounded by the sum
of the ship lengths, and it attains that sum when every ship was
placed. -/
lemma placeFleetAux_cons (size : ℤ) (rand : ℕ → ℕ → Draw) (l : ℕ)
    (rest : List ℕ) (i : ℕ) (S : Finset Coord) :
    placeFleetAux size rand (l :: rest) i S =
      match place_ship size l (rand i) S with
      | some coords =>
        ((placeFleetAux size rand rest (i + 1) (S ∪ coords)).1,
          coords :: (placeFleetAux size rand rest (i + 1) (S ∪ coords)).2)
      | none => placeFleetAux size rand rest (i + 1) S := rfl

lemma placeFleetAux_spec (size : ℤ) (rand : ℕ → ℕ → Draw) :
    ∀ (L : List ℕ) (i : ℕ) (S : Finset Coord),
      (∀ j, j < (placeFleetAux size rand L i S).2.length →
        valid_placement (S ∪ partialUnion (placeFleetAux size rand L i S).2 j)
          ((placeFleetAux size rand L i S).2.getD j ∅) = true) ∧
      (placeFleetAux size rand L i S).2.length ≤ L.length ∧
      (placeFleetAux size rand L i S).1.card ≤ S.card + L.sum ∧
      ((placeFleetAux size rand L i S).2.length = L.length →
        (placeFleetAux size rand L i S).1.card = S.card + L.sum) := by
  intro L
  induction L with
  | nil =>
    intro i S
    refine ⟨?_, ?_, ?_, ?_⟩ <;> simp [placeFleetAux]
  | cons l rest ih =>
    intro i S
    cases hps : place_ship size l (rand i) S with
    | none =>
      obtain ⟨h1, h2, h3, h4⟩ := ih (i + 1) S
      simp only [placeFleetAux_cons, hps]
      refine ⟨h1, ?_, ?_, ?_⟩
      · exact h2.trans (Nat.le_succ _)
      · refine h3.trans ?_
        rw [List.sum_cons]
        omega
      · intro hlen
        exfalso
        rw [List.length_cons] at hlen
        omega
    | some c =>
      obtain ⟨hvc, hcc⟩ := place_ship_some hps
      obtain ⟨h1, h2, h3, h4⟩ := ih (i + 1) (S ∪ c)
      have hdisj : Disjoint S c := valid_placement_disjoint hvc
      have hcard : (S ∪ c).card = S.card + c.card :=
        Finset.card_union_of_disjoint hdisj
      simp only [placeFleetAux_cons, hps]
      refine ⟨?_, ?_, ?_, ?_⟩
      · intro j hj
        match j with
        | 0 =>
          have h0 : partialUnion
              (c :: (placeFleetAux size rand rest (i + 1) (S ∪ c)).2) 0 = ∅ := rfl
          rw [List.getD_cons_zero, h0, Finset.union_empty]
          exact hvc
        | Nat.succ k =>
          have hk : k < (placeFleetAux size rand rest (i + 1) (S ∪ c)).2.length := by
            simpa using hj
          have := h1 k hk
          rw [List.getD_cons_succ, partialUnion_cons, ← Finset.union_assoc]
          exact this
      · simpa using Nat.succ_le_succ h2
      · refine h3.trans ?_
        rw [hcard, hcc, List.sum_cons]
        omega
      · intro hlen
        have hlen' : (placeFleetAux size rand rest (i + 1) (S ∪ c)).2.length
            = rest.length := by simpa using hlen
        have := h4 hlen'
        rw [this, hcard, hcc, List.sum_cons]
        omega

/-- C2: for every board size in `{6,…,10}` and every random stream,
every accepted placement of `place_fleet` is valid against the cells
placed before it (no intersection and no 8-neighbour contact), the
final ship-cell count is at most the sum of the size's fleet table, and
it equals that sum when every ship of the fleet was placed within its
attempts. -/
theorem place_fleet_spec (size : ℤ) (rand : ℕ → ℕ → Draw)
    (hsize : size = 6 ∨ size = 7 ∨ size = 8 ∨ size = 9 ∨ size = 10) :
    (∀ j, j < (place_fleet_run size rand).2.length →
      valid_placement (partialUnion (place_fleet_run size rand).2 j)
        ((place_fleet_run size rand).2.getD j ∅) = true) ∧
    (place_fleet_run size rand).1.card ≤ (fleetFor size).sum ∧
    ((place_fleet_run size rand).2.length = (fleetFor size).length →
      (place_fleet_run size rand).1.card = (fleetFor size).sum) := by
  clear hsize
  obtain ⟨h1, _, h3, h4⟩ := placeFleetAux_spec size rand (fleetFor size) 0 ∅
  unfold place_fleet_run
  refine ⟨fun j hj => ?_, ?_, fun hl => ?_⟩
  · have := h1 j hj
    rwa [Finset.empty_union] at this
  · simpa using h3
  · simpa using h4 hl

/-- Witness for C2: the 6×6 board and the constant random stream. -/
theorem place_fleet_spec_witness :
    (place_fleet_run 6 (fun _ _ => (true, 0, 0))).1.card ≤ (fleetFor 6).sum :=
  (place_fleet_spec 6 (fun _ _ => (true, 0, 0)) (Or.inl rfl)).2.1

/-- C3 counterexample: on a board whose fleet is empty, `get_stats`
reports `percent_ships_remaining = 0.0`, not `100.0` — the `else`
branch of the division guard yields `0.0`. -/
theorem get_stats_empty_fleet_cx :
    (Game.get_stats ⟨8, ∅, ∅, ∅⟩).total_ship_cells = 0 ∧
    (Game.get_stats ⟨8, ∅, ∅, ∅⟩).percent_ships_remaining = 0 ∧
    (Game.get_stats ⟨8, ∅, ∅, ∅⟩).percent_ships_remaining ≠ 100 := by
  refine ⟨rfl, ?_, ?_⟩ <;> simp [Game.get_stats, round1]

/-- C3 (amended): `get_stats` reports `accuracy` as
`hits / shots_fired × 100` rounded to one decimal (`0.0` with no shots)
and `percent_ships_remaining` as
`(total ship cells − hits) / total ship cells × 100` rounded to one
decimal — with `0.0`, not `100.0`, when the fleet is empty. -/
theorem get_stats_spec (g : Game) :
    (g.get_stats).shots_fired = g.hits.card + g.misses.card ∧
    (g.get_stats).accuracy =
      (if 0 < g.hits.card + g.misses.card then
        round1 ((g.hits.card : ℚ) / ((g.hits.card : ℚ) + g.misses.card) * 100)
      else 0) ∧
    (g.get_stats).percent_ships_remaining =
      (if 0 < g.ships.card then
        round1 (((g.ships.card : ℚ) - g.hits.card) / g.ships.card * 100)
      else 0) := by
  refine ⟨rfl, ?_, ?_⟩
  · show round1 (if 0 < g.hits.card + g.misses.card then
        ((g.hits.card : ℚ) / ((g.hits.card + g.misses.card : ℕ) : ℚ) * 100) else 0) = _
    by_cases h : 0 < g.hits.card + g.misses.card
    · rw [if_pos h, if_pos h]
      push_cast
      ring_nf
    · rw [if_neg h, if_neg h]
      simp [round1]
  · show round1 (if 0 < g.ships.card then
        ((((g.ships.card : ℤ) - g.hits.card : ℤ) : ℚ) / ((g.ships.card : ℕ) : ℚ) * 100)
      else 0) = _
    by_cases h : 0 < g.ships.card
    · rw [if_pos h, if_pos h]
      push_cast
      ring_nf
    · rw [if_neg h, if_neg h]
      simp [round1]

/-- C4 counterexample: with `shots_fired = 5`, `accuracy = 66.3` and
`board_size = 6`, the stored score is `1112` (the source truncates
`accuracy * 2` with `int()`), while the claimed formula with `round`
gives `1113`. -/
theorem save_game_score_cx :
    (save_game_score ⟨5, 0, 663 / 10, 0, 0, 0, false, 6, 36⟩ none).score = 1112 ∧
    max 0 (1000 - (5 : ℤ) * 10 + round ((663 : ℚ) / 10 * 2) + 6 * 5) = 1113 := by
  constructor
  · show max 0 (1000 - (5 : ℤ) * 10 + pyIntTrunc ((663 : ℚ) / 10 * 2) + 6 * 5) = 1112
    norm_num [pyIntTrunc]
  · norm_num [round_eq]

/-- C4 (amended): `save_game_score` stores
`max(0, 1000 − shots_fired×10 + int(accuracy×2) + board_size×5)`, where
`int` truncates toward zero (not `round`); on
`shots_fired = 10, accuracy = 80.0, board_size = 8` the stored score is
`1100`. -/
theorem save_game_score_spec (stats : Stats) (difficulty : Option String) :
    (save_game_score stats difficulty).score =
      max 0 (1000 - (stats.shots_fired : ℤ) * 10 + pyIntTrunc (stats.accuracy * 2)
        + stats.board_size * 5) ∧
    (save_game_score ⟨10, 8, 80, 0, 8, 0, true, 8, 64⟩ none).score = 1100 := by
  constructor
  · rfl
  · show max 0 (1000 - (10 : ℤ) * 10 + pyIntTrunc ((80 : ℚ) * 2) + 8 * 5) = 1100
    norm_num [pyIntTrunc]

/-- C5 counterexample: in the `"production"` environment the
`session_token` cookie is still set with `secure=False` — the claimed
equivalence of the secure flag with `environment = "production"` fails. -/
theorem create_session_cookies_cx :
    ¬((create_session_cookies "production" false).1.secure =
        ("production" = "production" : Bool) ∧
      (create_session_cookies "production" false).2.secure =
        ("production" = "production" : Bool)) := by
  intro h
  have h1 := h.1
  rw [show (create_session_cookies "production" false).1.secure = false from rfl] at h1
  simp at h1

/-- C5 (amended): on every successful login both cookies are set with
`HttpOnly` true and `SameSite=Lax`, and the `secure` flag is the
literal `False` regardless of the deployment environment. -/
theorem create_session_cookies_spec (environment : String) (remember : Bool) :
    ((create_session_cookies environment remember).1.httponly = true ∧
     (create_session_cookies environment remember).1.samesite = "lax" ∧
     (create_session_cookies environment remember).1.secure = false) ∧
    ((create_session_cookies environment remember).2.httponly = true ∧
     (create_session_cookies environment remember).2.samesite = "lax" ∧
     (create_session_cookies environment remember).2.secure = false) :=
  ⟨⟨rfl, rfl, rfl⟩, ⟨rfl, rfl, rfl⟩⟩

/-- C9: every outcome of `validate_login_credentials` is either success
or a failure carrying exactly the message `"Invalid email or
password."` — so no two failure causes (malformed email, unknown email,
inactive account, missing password hash, wrong password) are
distinguishable by the response message. -/
theorem validate_login_credentials_spec
    (validate_email : String → Option String)
    (get_user_by_email : String → Option DBUser)
    (verify_password : String → String → Bool)
    (email password : String) :
    (∃ u, validate_login_credentials validate_email get_user_by_email
        verify_password email password = .success u) ∨
    validate_login_credentials validate_email get_user_by_email
        verify_password email password
      = .failure false "Invalid email or password." := by
  unfold validate_login_credentials
  split
  · exact Or.inr rfl
  · split
    · exact Or.inr rfl
    · split
      · exact Or.inr rfl
      · split
        · exact Or.inr rfl
        · exact Or.inl ⟨_, rfl⟩

/-- Pruning at time `ts k` keeps every earlier call time when all of
them lie within one window. -/
lemma prune_keeps_all {N : ℕ} {window : ℚ} {ts : ℕ → ℚ}
    (hmono : ∀ i j, i ≤ j → j ≤ N → ts i ≤ ts j)
    (hwin : ts N - ts 0 < window) {n : ℕ} (hn : n ≤ N) :
    prune_bucket (ts n) window ((List.range n).map ts)
      = (List.range n).map ts := by
  apply List.filter_eq_self.mpr
  intro t ht
  obtain ⟨j, hjmem, hjeq⟩ := List.mem_map.mp ht
  have hj : j < n := List.mem_range.mp hjmem
  simp only [decide_eq_true_eq]
  have h1 : ts n ≤ ts N := hmono n N hn le_rfl
  have h2 : ts 0 ≤ ts j :=
    hmono 0 j (Nat.zero_le _) (le_trans (Nat.le_of_lt hj) hn)
  rw [← hjeq]
  linarith

/-- Under the monotone-within-window hypotheses, the first `k ≤ N` calls
are all allowed and the bucket holds exactly the call times. -/
lemma rlRun_closed {N : ℕ} {window : ℚ} {ts : ℕ → ℚ}
    (hmono : ∀ i j, i ≤ j → j ≤ N → ts i ≤ ts j)
    (hwin : ts N - ts 0 < window) :
    ∀ k, k ≤ N →
      rlRun N window ts k = ((List.range k).map ts, List.replicate k true) := by
  intro k
  induction k with
  | zero => intro _; rfl
  | succ n ih =>
    intro hn
    have hn' : n ≤ N := Nat.le_of_succ_le hn
    have hrec := ih hn'
    have hkeep := prune_keeps_all hmono hwin hn'
    have hallow : check_rate_limit N window (ts n) ((List.range n).map ts)
        = (true, (List.range n).map ts ++ [ts n]) := by
      unfold check_rate_limit prune_bucket
      rw [show (List.filter (fun t => decide (ts n - t < window))
          ((List.range n).map ts)) = (List.range n).map ts from hkeep]
      rw [if_neg ?_]
      have hlen : ((List.range n).map ts).length = n := by simp
      rw [hlen]
      omega
    simp only [rlRun]
    rw [hrec]
    simp only []
    rw [hallow]
    simp [List.range_succ, List.replicate_succ']

/-- C8: one `check_rate_limit` call first drops the timestamps that have
aged out of the window, then denies without recording a new event when
the remaining count already reaches the limit, and otherwise records the
call time and allows; consequently, with `limit = N`, `N` monotone calls
for the same key within one window are all allowed and the `(N+1)`-th
is denied. -/
theorem check_rate_limit_spec :
    (∀ (limit : ℕ) (window now : ℚ) (bucket : List ℚ),
      (limit ≤ (prune_bucket now window bucket).length →
        check_rate_limit limit window now bucket
          = (false, prune_bucket now window bucket)) ∧
      ((prune_bucket now window bucket).length < limit →
        check_rate_limit limit window now bucket
          = (true, prune_bucket now window bucket ++ [now]))) ∧
    (∀ (N : ℕ) (window : ℚ) (ts : ℕ → ℚ),
      (∀ i j, i ≤ j → j ≤ N → ts i ≤ ts j) →
      ts N - ts 0 < window →
      (rlRun N window ts (N + 1)).2 = List.replicate N true ++ [false]) := by
  constructor
  · intro limit window now bucket
    constructor
    · intro h
      unfold check_rate_limit
      rw [if_pos h]
    · intro h
      unfold check_rate_limit
      rw [if_neg (by omega)]
  · intro N window ts hmono hwin
    have hN := rlRun_closed hmono hwin N le_rfl
    have hkeep := prune_keeps_all hmono hwin le_rfl
    have hdeny : check_rate_limit N window (ts N) ((List.range N).map ts)
        = (false, (List.range N).map ts) := by
      unfold check_rate_limit prune_bucket
      rw [show (List.filter (fun t => decide (ts N - t < window))
          ((List.range N).map ts)) = (List.range N).map ts from hkeep]
      rw [if_pos ?_]
      have hlen : ((List.range N).map ts).length = N := by simp
      rw [hlen]
    simp only [rlRun]
    rw [hN]
    simp only []
    rw [hdeny]

/-- Witness for C8: three calls at the same instant against `limit = 2`,
`window = 60` — allowed, allowed, denied. -/
theorem check_rate_limit_spec_witness :
    (rlRun 2 60 (fun _ => 0) 3).2 = List.replicate 2 true ++ [false] :=
  check_rate_limit_spec.2 2 60 (fun _ => 0) (fun _ _ _ _ => le_rfl) (by norm_num)

/-- C7: `_take_turn` lets the AI fire exactly one return shot — the one
its strategy picks, applied to the human's fleet board — except when
the game was already over, the coordinates are off-board, the player's
shot was a repeat, or the player's shot won; and a score is persisted
only for a winning shot by an authenticated player. -/
theorem take_turn_spec (cu : Option AuthenticatedUser) (aiMove : Game → ℤ × ℤ)
    (s : SessionState) (x y : ℤ) :
    ((take_turn cu aiMove s x y).ai_shot = some (aiMove s.ai_target) ∨
      (take_turn cu aiMove s x y).ai_shot = none) ∧
    ((take_turn cu aiMove s x y).ai_shot.isSome = true ↔
      ((s.player_won || s.ai_won) = false ∧
       (0 ≤ x ∧ x < s.player_target.size ∧ 0 ≤ y ∧ y < s.player_target.size) ∧
       (s.player_target.fire x y).1.isRepeat = false ∧
       (s.player_target.fire x y).1.won = false)) ∧
    (∀ mv, (take_turn cu aiMove s x y).ai_shot = some mv →
      (take_turn cu aiMove s x y).session.ai_target = (s.ai_target.fire mv.1 mv.2).2) ∧
    ((take_turn cu aiMove s x y).ai_shot = none →
      (take_turn cu aiMove s x y).session.ai_target = s.ai_target) ∧
    ((take_turn cu aiMove s x y).score_saved = true →
      (s.player_target.fire x y).1.won = true ∧ cu.isSome = true) := by
  simp only [take_turn]
  split_ifs with hover hbounds hrep hwon
  · refine ⟨Or.inr rfl, ?_, ?_, fun _ => rfl, ?_⟩
    · simp [hover]
    · intro mv h
      simp at h
    · intro h
      simp at h
  · refine ⟨Or.inr rfl, ?_, ?_, fun _ => rfl, ?_⟩
    · simp only [Bool.not_eq_true'] at hbounds
      constructor
      · intro h
        simp at h
      · intro h
        obtain ⟨hx0, hx1, hy0, hy1⟩ := h.2.1
        simp [hx0, hx1, hy0, hy1] at hbounds
    · intro mv h
      simp at h
    · intro h
      simp at h
  · refine ⟨Or.inr rfl, ?_, ?_, fun _ => rfl, ?_⟩
    · simp [hrep]
    · intro mv h
      simp at h
    · intro h
      simp at h
  · refine ⟨Or.inr rfl, ?_, ?_, fun _ => rfl, ?_⟩
    · simp [hwon]
    · intro mv h
      simp at h
    · intro h
      simp only [Bool.and_eq_true] at h
      exact ⟨h.2.1, h.2.2.1⟩
  · refine ⟨Or.inl rfl, ?_, ?_, ?_, ?_⟩
    · simp only [Option.isSome_some, true_iff]
      simp only [Bool.not_eq_true', Bool.not_eq_true] at hover hrep hwon
      simp only [Bool.not_eq_true', Bool.not_eq_false, Bool.and_eq_true,
        decide_eq_true_eq] at hbounds
      exact ⟨hover, ⟨hbounds.1.1.1, hbounds.1.1.2, hbounds.1.2, hbounds.2⟩, hrep, hwon⟩
    · intro mv h
      injection h with h
      subst h
      rfl
    · intro h
      simp at h
    · intro h
      simp only [Bool.not_eq_true] at hwon
      rw [hwon] at h
      simp at h

/-- Witness for C7: a winning shot by a guest on a one-ship board —
the AI fires no return shot. -/
theorem take_turn_spec_witness :
    (take_turn none (fun _ => (2, 2))
        ⟨⟨8, {((0 : ℤ), (0 : ℤ))}, ∅, ∅⟩, ⟨8, {((1 : ℤ), (1 : ℤ))}, ∅, ∅⟩, []⟩
        0 0).ai_shot
      = some ((fun _ => ((2 : ℤ), (2 : ℤ)))
          (⟨8, {((1 : ℤ), (1 : ℤ))}, ∅, ∅⟩ : Game)) ∨
    (take_turn none (fun _ => (2, 2))
        ⟨⟨8, {((0 : ℤ), (0 : ℤ))}, ∅, ∅⟩, ⟨8, {((1 : ℤ), (1 : ℤ))}, ∅, ∅⟩, []⟩
        0 0).ai_shot = none :=
  (take_turn_spec none (fun _ => (2, 2))
    ⟨⟨8, {((0 : ℤ), (0 : ℤ))}, ∅, ∅⟩, ⟨8, {((1 : ℤ), (1 : ℤ))}, ∅, ∅⟩, []⟩ 0 0).1

/-- `round1 0 = 0`. -/
lemma round1_zero : round1 0 = 0 := by simp [round1]

/-- One-decimal rounding is monotone. -/
lemma round1_mono {a b : ℚ} (hab : a ≤ b) : round1 a ≤ round1 b := by
  unfold round1
  have h10 : round (a * 10) ≤ round (b * 10) := by
    rw [round_eq, round_eq]
    exact Int.floor_mono (by linarith)
  have hc : ((round (a * 10) : ℤ) : ℚ) ≤ ((round (b * 10) : ℤ) : ℚ) := by
    exact_mod_cast h10
  linarith

/-- The `accuracy` field of `get_stats`, unfolded. -/
lemma get_stats_accuracy (g : Game) :
    (g.get_stats).accuracy =
      round1 (if 0 < g.hits.card + g.misses.card then
        (g.hits.card : ℚ) / ((g.hits.card + g.misses.card : ℕ) : ℚ) * 100
      else 0) := rfl

/-- A shot recorded as a miss never increases the reported accuracy. -/
lemma accuracy_le_of_miss {g : Game} {x y : ℤ}
    (hh : (x, y) ∉ g.hits) (hm : (x, y) ∉ g.misses) (hs : (x, y) ∉ g.ships) :
    ((g.fire x y).2.get_stats).accuracy ≤ (g.get_stats).accuracy := by
  have hfe : (g.fire x y).2 = { g with misses := insert (x, y) g.misses } := by
    rw [fire_eq, if_neg (by tauto), if_neg hs]
  rw [get_stats_accuracy, get_stats_accuracy, hfe]
  simp only [Finset.card_insert_of_not_mem hm]
  rw [if_pos (by omega)]
  by_cases hsm : 0 < g.hits.card + g.misses.card
  · rw [if_pos hsm]
    apply round1_mono
    have hnum : (0 : ℚ) ≤ (g.hits.card : ℚ) := Nat.cast_nonneg _
    have hden : (0 : ℚ) < (g.hits.card : ℚ) + (g.misses.card : ℚ) := by
      exact_mod_cast hsm
    push_cast
    gcongr <;> linarith
  · rw [if_neg hsm]
    have h0 : g.hits.card = 0 := by omega
    rw [h0]
    simp [round1_zero]

/-- C10 counterexample: with one ship cell and no prior shots, an
off-board shot at `(-1, -1)` is recorded as a miss but the reported
accuracy stays `0.0` — the claimed strict decrease fails. -/
theorem fire_off_board_cx :
    ((Game.fire ⟨8, {((0 : ℤ), (0 : ℤ))}, ∅, ∅⟩ (-1) (-1)).2.get_stats).accuracy
        = (Game.get_stats ⟨8, {((0 : ℤ), (0 : ℤ))}, ∅, ∅⟩).accuracy ∧
    ¬(((Game.fire ⟨8, {((0 : ℤ), (0 : ℤ))}, ∅, ∅⟩ (-1) (-1)).2.get_stats).accuracy
        < (Game.get_stats ⟨8, {((0 : ℤ), (0 : ℤ))}, ∅, ∅⟩).accuracy) := by
  have hfe : Game.fire ⟨8, {((0 : ℤ), (0 : ℤ))}, ∅, ∅⟩ (-1) (-1)
      = ({ hit := false },
        ⟨8, {((0 : ℤ), (0 : ℤ))}, ∅, insert ((-1 : ℤ), (-1 : ℤ)) ∅⟩) := by
    rw [fire_eq, if_neg (by decide), if_neg (by decide)]
  have ha : ((Game.fire ⟨8, {((0 : ℤ), (0 : ℤ))}, ∅, ∅⟩ (-1) (-1)).2.get_stats).accuracy
      = (Game.get_stats ⟨8, {((0 : ℤ), (0 : ℤ))}, ∅, ∅⟩).accuracy := by
    rw [hfe, get_stats_accuracy, get_stats_accuracy]
    norm_num [round1]
  exact ⟨ha, by rw [ha]; exact lt_irrefl _⟩

/-- C10 (amended): `Game.fire` is total and performs no bounds check:
an off-board, not-yet-fired coordinate is recorded as a miss, counted
in `shots_fired`, and never increases the reported accuracy; and
`POST /ai/shot` passes the form-supplied coordinates to `fire`
unvalidated, so the off-board miss lands in the session's board. -/
theorem fire_off_board_spec (aiMove : AISession → ℤ × ℤ) (sd : AISession) (x y : ℤ)
    (hships : ∀ c ∈ sd.player_game.ships,
      0 ≤ c.1 ∧ c.1 < sd.player_game.size ∧ 0 ≤ c.2 ∧ c.2 < sd.player_game.size)
    (hoff : ¬(0 ≤ x ∧ x < sd.player_game.size ∧ 0 ≤ y ∧ y < sd.player_game.size))
    (hh : (x, y) ∉ sd.player_game.hits) (hm : (x, y) ∉ sd.player_game.misses)
    (hturn : sd.turn = "player") :
    (sd.player_game.fire x y).1 = { hit := false } ∧
    (sd.player_game.fire x y).2.misses = insert (x, y) sd.player_game.misses ∧
    ((sd.player_game.fire x y).2.get_stats).shots_fired
      = (sd.player_game.get_stats).shots_fired + 1 ∧
    ((sd.player_game.fire x y).2.get_stats).accuracy
      ≤ (sd.player_game.get_stats).accuracy ∧
    ∃ sd', player_shot aiMove (some sd) x y = ShotOutcome.page sd' ∧
      (x, y) ∈ sd'.player_game.misses := by
  have hs : (x, y) ∉ sd.player_game.ships := by
    intro hc
    exact hoff (by
      obtain ⟨h1, h2, h3, h4⟩ := hships _ hc
      exact ⟨h1, h2, h3, h4⟩)
  have hfe : sd.player_game.fire x y =
      ({ hit := false },
        { sd.player_game with misses := insert (x, y) sd.player_game.misses }) := by
    rw [fire_eq, if_neg (by tauto), if_neg hs]
  refine ⟨by rw [hfe], by rw [hfe], ?_, accuracy_le_of_miss hh hm hs, ?_⟩
  · rw [hfe]
    show sd.player_game.hits.card + (insert (x, y) sd.player_game.misses).card
      = sd.player_game.hits.card + sd.player_game.misses.card + 1
    rw [Finset.card_insert_of_not_mem hm]
    omega
  · simp only [player_shot]
    unfold player_shot_session
    rw [if_neg (by rw [hturn]; simp), hfe]
    exact ⟨_, rfl, Finset.mem_insert_self _ _⟩

/-- Witness for C10: an off-board shot through the engine on a concrete
one-ship board is recorded as a miss. -/
theorem fire_off_board_spec_witness :
    ((⟨8, {((0 : ℤ), (0 : ℤ))}, ∅, ∅⟩ : Game).fire (-1) (-1)).2.misses
      = insert ((-1 : ℤ), (-1 : ℤ)) (∅ : Finset Coord) :=
  (fire_off_board_spec (fun _ => (3, 3))
    ⟨⟨8, {((0 : ℤ), (0 : ℤ))}, ∅, ∅⟩, ⟨8, ∅, ∅, ∅⟩, "player", none⟩ (-1) (-1)
    (by decide) (by decide) (by decide) (by decide) rfl).2.1

end Battleship
